import Mathlib

/-!
Verification development for the OpenBCI_Python_Framework processing nodes:
the sliding-window segmenter, the interpolate node and the data-replicate
node.  The Python code is shallowly embedded: each per-channel algorithm
becomes a Lean function on lists, parameter dictionaries become records of
optional tagged values, and exceptions become an explicit result type.
-/

/-- A Python value as it appears in a node's parameter dictionary: an
integer, a string, a boolean, or some other type.  Python's
`type(x) is not int` check distinguishes `bool` from `int`, so booleans are
a separate constructor. -/
inductive PyVal where
  | int (n : Int)
  | str (s : String)
  | bool (b : Bool)
  | other
deriving DecidableEq, Repr

/-- Whether the value is a Python `int` (a Python `bool` is not). -/
def PyVal.isInt : PyVal → Bool
  | .int _ => true
  | _ => false

/-- Whether the value is a Python `str`. -/
def PyVal.isStr : PyVal → Bool
  | .str _ => true
  | _ => false

/-- Whether the value is a Python `bool`. -/
def PyVal.isBool : PyVal → Bool
  | .bool _ => true
  | _ => false

/-- The integer carried by the value (junk on non-integers; only read after
an `isInt` check, as in the source). -/
def PyVal.asInt : PyVal → Int
  | .int n => n
  | _ => 0

/-- The string carried by the value (junk on non-strings). -/
def PyVal.asStr : PyVal → String
  | .str s => s
  | _ => ""

/-- The boolean carried by the value (junk on non-booleans). -/
def PyVal.asBool : PyVal → Bool
  | .bool b => b
  | _ => false

/-- Outcome of running a node's `_validate_parameters`: either it returns
normally, or it raises `MissingParameterError` for a parameter, or it raises
`InvalidParameterValue` for a parameter with a cause code. -/
inductive VResult where
  | ok
  | missingParameter (parameter : String)
  | invalidParameterValue (parameter : String) (cause : String)
deriving DecidableEq, Repr

/-- Whether the validation outcome is a `MissingParameterError`. -/
def VResult.isMissing : VResult → Bool
  | .missingParameter _ => true
  | _ => false

/-- The parameter dictionary of `SlidingWindowSegmenter`, restricted to the
three keys its own `_validate_parameters` inspects (`none` models an absent
key).  The superclass validates only the unrelated buffer options. -/
structure SWParams where
  window_size : Option PyVal
  filling_value : Option PyVal
  step_size : Option PyVal
deriving DecidableEq, Repr

/-- `SlidingWindowSegmenter._validate_parameters`, checks performed in
source order: presence of the three keys, then type and domain of
`window_size`, `filling_value` and `step_size`. -/
def swValidate (p : SWParams) : VResult :=
  match p.window_size, p.filling_value, p.step_size with
  | Option.none, _, _ => .missingParameter "window_size"
  | _, Option.none, _ => .missingParameter "filling_value"
  | _, _, Option.none => .missingParameter "step_size"
  | some wv, some fv, some sv =>
    if ¬ wv.isInt then .invalidParameterValue "window_size" "must_be_int"
    else if wv.asInt < 1 then
      .invalidParameterValue "window_size" "must_be_greater_than_0"
    else if ¬ fv.isStr then .invalidParameterValue "filling_value" "must_be_str"
    else if ¬ (fv.asStr = "zero" ∨ fv.asStr = "latest") then
      .invalidParameterValue "filling_value" "must_be_in.[zero, latest]"
    else if ¬ sv.isInt then .invalidParameterValue "step_size" "must_be_int"
    else if sv.asInt < 1 ∨ sv.asInt ≥ wv.asInt then
      .invalidParameterValue "step_size"
        "must_be_greater_than_0_and_smaller_than_window_size"
    else .ok

/-- The parameter dictionary of `Interpolate`, restricted to the keys its
`_validate_parameters` inspects. -/
structure IParams where
  window_size : Option PyVal
  sliding_window : Option PyVal
  step_size : Option PyVal
deriving DecidableEq, Repr

/-- `Interpolate._validate_parameters`, checks performed in source order:
`window_size` present, an int, greater than 1; `sliding_window` present and
a bool; and only when `sliding_window` is `True`, `step_size` present, an
int, and strictly between 1 and `window_size`. -/
def interpolateValidate (p : IParams) : VResult :=
  match p.window_size with
  | Option.none => .missingParameter "window_size"
  | some wv =>
    if ¬ wv.isInt then .invalidParameterValue "window_size" "must_be_int"
    else if wv.asInt ≤ 1 then
      .invalidParameterValue "window_size" "must_be_greater_than_0"
    else
      match p.sliding_window with
      | Option.none => .missingParameter "sliding_window"
      | some bv =>
        if ¬ bv.isBool then
          .invalidParameterValue "sliding_window" "must_be_bool"
        else if bv.asBool then
          match p.step_size with
          | Option.none => .missingParameter "step_size"
          | some sv =>
            if ¬ sv.isInt then
              .invalidParameterValue "step_size" "must_be_int"
            else if sv.asInt ≤ 1 ∨ sv.asInt ≥ wv.asInt then
              .invalidParameterValue "step_size" "invalid_value"
            else .ok
        else .ok

/-- The loop of `SlidingWindowSegmenter.segment_data` on one channel: while
`index + window_size < len(chan)`, emit the slice
`chan[index : index + window_size]` and advance `index` by `step_size`.
Returns the emitted epochs together with the value of `index` after the
loop.  The `0 < s` conjunct in the guard makes the recursion terminate; it
holds on every run of the source, whose validated `step_size` is at
least 1 (the source loop would not terminate with `step_size = 0`). -/
def segmentLoop (w s : Nat) (chan : List Int) (index : Nat) :
    List (List Int) × Nat :=
  if _h : index + w < chan.length ∧ 0 < s then
    let rest := segmentLoop w s chan (index + s)
    (((chan.drop index).take w) :: rest.1, rest.2)
  else ([], index)
termination_by chan.length - index
decreasing_by
  omega

/-- Number of iterations the segmenter loop performs on a channel of length
`N` starting from `index`. -/
def loopCount (w s N : Nat) (index : Nat) : Nat :=
  if _h : index + w < N ∧ 0 < s then loopCount w s N (index + s) + 1 else 0
termination_by N - index
decreasing_by
  omega

/-- `SlidingWindowSegmenter.segment_data` on one channel (the source runs
the same computation per channel; `data_count` is the channel length under
the rectangular-shape invariant).  After the loop,
`remaining = data_count - index` (computed in `Int`, as in Python); when it
is nonzero a final epoch `chan[index:] ++ filling_vector` is emitted, where
the filling vector has `window_size - remaining` entries: zeros under
`"zero"`, the channel's last sample `chan[data_count - 1]` under
`"latest"`, and an unknown filling value leaves the vector empty (the
source initialises it to `[]`).  Python's `[x] * n` is empty for `n ≤ 0`,
matching `Int.toNat`. -/
def segment_data (w s : Nat) (filling : String) (chan : List Int) :
    List (List Int) :=
  let r := segmentLoop w s chan 0
  let index := r.2
  let remaining : Int := (chan.length : Int) - (index : Int)
  if remaining ≠ 0 then
    let filling_vector : List Int :=
      if filling = "zero" then
        List.replicate ((w : Int) - remaining).toNat 0
      else if filling = "latest" then
        List.replicate ((w : Int) - remaining).toNat
          (chan.getD (chan.length - 1) 0)
      else []
    r.1 ++ [chan.drop index ++ filling_vector]
  else r.1

/-- One iteration of the sliding-mode merge loop in `Interpolate._process`:
with `merged` the current slot array (whose length always equals the
source's `window_end_index`), append the epoch value `v` as an extra
candidate to the last `window_size - step_size` slots (the overlap region)
and then append `step_size` fresh singleton slots holding `v`. -/
def slideStep (w s : Nat) (v : Int) (merged : List (List Int)) :
    List (List Int) :=
  let inter := w - s
  merged.take (merged.length - inter)
    ++ (merged.drop (merged.length - inter)).map (fun c => c ++ [v])
    ++ List.replicate s [v]

/-- The merged slot array built by sliding-mode `Interpolate._process` for
one channel from the list of per-epoch values: `window_size` singleton
slots holding epoch 0's value, then one `slideStep` per later epoch, in
order. -/
def interpolateMerge (w s : Nat) (vals : List Int) : List (List Int) :=
  vals.tail.foldl (fun merged v => slideStep w s v merged)
    (List.replicate w [vals.getD 0 0])

/-- Python's `max` on a list: the maximum of a nonempty list (junk value 0
on the empty list, where the source would raise). -/
def pyMax : List Int → Int
  | [] => 0
  | x :: xs => xs.foldl max x

/-- Sliding-mode `Interpolate._process` on one channel: resolve each merged
slot, emitting `[max(slot)]` when the slot holds more than one candidate
and the slot's own (singleton or empty) contents otherwise. -/
def interpolateSliding (w s : Nat) (vals : List Int) : List Int :=
  (interpolateMerge w s vals).foldr
    (fun c acc => (if 1 < c.length then [pyMax c] else c) ++ acc) []

/-- Non-sliding `Interpolate._process` on one channel: each epoch value is
replicated `window_size` times, blocks concatenated in epoch order. -/
def interpolateNonSliding (w : Nat) (vals : List Int) : List Int :=
  vals.foldr (fun v acc => List.replicate w v ++ acc) []

/-- `DataReplicate._process` on one channel: every sample is emitted
`data_repetition_count` consecutive times in order; when `use_extra_data`
is set, the channel's last sample `channel_elements[-1]` is appended
`extra_data` more times — on an empty channel that Python indexing raises
`IndexError`, modelled as `none`. -/
def dataReplicateChannel (drc : Nat) (useExtra : Bool) (extra : Nat)
    (chan : List Int) : Option (List Int) :=
  let replicated := chan.foldr (fun e acc => List.replicate drc e ++ acc) []
  if useExtra then
    match chan.getLast? with
    | some last => some (replicated ++ List.replicate extra last)
    | Option.none => Option.none
  else some replicated

/-- Modelled from the spec: the `FrameworkData` container (the spec's
Channel-Keyed Sequence) is not part of the sources here; per §3 it carries
`sampling_frequency_hz` and an ordered per-channel mapping to a sequence of
elements.  Call sites show its constructor takes the sampling frequency
(`FrameworkData(sampling_frequency_hz=...)`) and that
`FrameworkData.from_multi_channel(freq, channels, [])` builds an empty
container over given channels with that frequency. -/
structure FrameworkData (α : Type) where
  sampling_frequency : Int
  channels : List String
  data : String → List α

/-- Modelled from the spec: `FrameworkData.from_multi_channel(freq,
channels, [])` — an empty container over the given channels with the given
sampling frequency. -/
def FrameworkData.from_multi_channel (freq : Int) (cs : List String) :
    FrameworkData Int :=
  ⟨freq, cs, fun _ => []⟩

/-- `SlidingWindowSegmenter.segment_data` at container level: the output is
created with `FrameworkData(sampling_frequency_hz=data.sampling_frequency)`
and each channel is segmented independently. -/
def segment_data_fd (w s : Nat) (filling : String) (d : FrameworkData Int) :
    FrameworkData (List Int) :=
  ⟨d.sampling_frequency, d.channels,
    fun c => segment_data w s filling (d.data c)⟩

/-- `Interpolate._process` at container level: the output container is
`FrameworkData.from_multi_channel(1, channels, [])`, then filled per
channel by the sliding or non-sliding reconstruction. -/
def interpolate_process_fd (w s : Nat) (sliding : Bool)
    (d : FrameworkData Int) : FrameworkData Int :=
  { FrameworkData.from_multi_channel 1 d.channels with
    data := fun c =>
      if sliding then interpolateSliding w s (d.data c)
      else interpolateNonSliding w (d.data c) }

/-- `DataReplicate._process` at container level: the output container is
`FrameworkData.from_multi_channel(1, channels, [])`, then filled per
channel; if `use_extra_data` is set and some channel is empty the source
raises `IndexError` on `channel_elements[-1]`, modelled as `none`. -/
def dataReplicate_process_fd (drc : Nat) (useExtra : Bool) (extra : Nat)
    (d : FrameworkData Int) : Option (FrameworkData Int) :=
  if useExtra ∧ d.channels.any (fun c => (d.data c).isEmpty) then Option.none
  else
    some { FrameworkData.from_multi_channel 1 d.channels with
      data := fun c => (dataReplicateChannel drc useExtra extra (d.data c)).getD [] }

/-- Auxiliary: joint characterisation of the segmenter loop by induction on
the remaining length: the emitted epochs are the slices at indices
`i, i + s, i + 2s, ...` while the slice still fits strictly inside the
channel, and the final index is the start plus `step_size` per
iteration. -/
theorem segmentLoop_spec_aux (w s : Nat) (chan : List Int) :
    ∀ n i, chan.length - i ≤ n →
      (segmentLoop w s chan i).1 =
        (List.range (loopCount w s chan.length i)).map
          (fun k => (chan.drop (i + k * s)).take w)
      ∧ (segmentLoop w s chan i).2 = i + loopCount w s chan.length i * s := by
  intro n
  induction n with
  | zero =>
    intro i hle
    have hcond : ¬ (i + w < chan.length ∧ 0 < s) := by omega
    rw [segmentLoop, loopCount]
    simp [hcond]
  | succ n ih =>
    intro i hle
    rw [segmentLoop, loopCount]
    by_cases hcond : i + w < chan.length ∧ 0 < s
    · have hrec := ih (i + s) (by omega)
      simp only [dif_pos hcond]
      constructor
      · rw [hrec.1, List.range_succ_eq_map]
        simp only [List.map_cons, List.map_map, Nat.zero_mul, Nat.add_zero]
        refine congrArg₂ _ rfl ?_
        refine List.map_congr_left ?_
        intro k _
        simp only [Function.comp]
        have harg : Nat.succ k * s = k * s + s := Nat.succ_mul k s
        congr 2
        omega
      · rw [hrec.2]
        ring
    · simp [hcond]

/-- The epochs emitted by the segmenter loop from index 0 are exactly the
window-size slices at indices `0, s, 2s, ...` while they fit strictly. -/
theorem segmentLoop_fst (w s : Nat) (chan : List Int) :
    (segmentLoop w s chan 0).1 =
      (List.range (loopCount w s chan.length 0)).map
        (fun k => (chan.drop (k * s)).take w) := by
  have h := (segmentLoop_spec_aux w s chan chan.length 0 (by omega)).1
  simpa using h

/-- The segmenter loop's final index from start 0 is `loopCount * s`. -/
theorem segmentLoop_snd (w s : Nat) (chan : List Int) :
    (segmentLoop w s chan 0).2 = loopCount w s chan.length 0 * s := by
  have h := (segmentLoop_spec_aux w s chan chan.length 0 (by omega)).2
  simpa using h

/-- Auxiliary: every iteration of the segmenter loop starts at an index
whose window ends strictly before the end of the channel. -/
theorem loopCount_start_lt_aux (w s N : Nat) :
    ∀ n i k, N - i ≤ n → k < loopCount w s N i → i + k * s + w < N := by
  intro n
  induction n with
  | zero =>
    intro i k hle hk
    have hcond : ¬ (i + w < N ∧ 0 < s) := by omega
    rw [loopCount] at hk
    simp [hcond] at hk
  | succ n ih =>
    intro i k hle hk
    rw [loopCount] at hk
    by_cases hcond : i + w < N ∧ 0 < s
    · rw [dif_pos hcond] at hk
      cases k with
      | zero => simpa using hcond.1
      | succ j =>
        have hj := ih (i + s) j (by omega) (by omega)
        show i + (j + 1) * s + w < N
        have harg : (j + 1) * s = j * s + s := by ring
        omega
    · rw [dif_neg hcond] at hk
      omega

/-- Every loop-emitted epoch starts at an index `k * s` with
`k * s + window_size` strictly below the channel length. -/
theorem loopStart_lt (w s N k : Nat) (hk : k < loopCount w s N 0) :
    k * s + w < N := by
  have h := loopCount_start_lt_aux w s N N 0 k (by omega) hk
  omega

/-- With a validated step (positive and at most the window), the final loop
index never exceeds the channel length. -/
theorem segmentLoop_snd_le (w s : Nat) (chan : List Int)
    (hsw : s ≤ w) : (segmentLoop w s chan 0).2 ≤ chan.length := by
  rcases Nat.eq_zero_or_pos (loopCount w s chan.length 0) with h0 | hpos
  · rw [segmentLoop_snd, h0]
    simp
  · obtain ⟨m, hm⟩ : ∃ m, loopCount w s chan.length 0 = m + 1 :=
      ⟨loopCount w s chan.length 0 - 1, by omega⟩
    have hlt := loopStart_lt w s chan.length m (by omega)
    rw [segmentLoop_snd, hm]
    have hmul : (m + 1) * s = m * s + s := by ring
    omega
theorem getD_length_sub_one (l : List Int) :
    l.getD (l.length - 1) 0 = l.getLast?.getD 0 := by
  induction l with
  | nil => rfl
  | cons x xs ih =>
    cases xs with
    | nil => rfl
    | cons y ys =>
      rw [List.getLast?_cons_cons]
      have hlen : (x :: y :: ys).length - 1 = (y :: ys).length - 1 + 1 := by
        simp
      rw [hlen, List.getD_cons_succ]
      exact ih

/-- Unfolding of `segment_data` with its let-bindings inlined. -/
theorem segment_data_eq (w s : Nat) (fill : String) (chan : List Int) :
    segment_data w s fill chan =
      if (chan.length : Int) - ((segmentLoop w s chan 0).2 : Int) ≠ 0 then
        (segmentLoop w s chan 0).1 ++
          [chan.drop (segmentLoop w s chan 0).2 ++
            (if fill = "zero" then
              List.replicate
                ((w : Int) -
                  ((chan.length : Int) - ((segmentLoop w s chan 0).2 : Int))).toNat 0
             else if fill = "latest" then
              List.replicate
                ((w : Int) -
                  ((chan.length : Int) - ((segmentLoop w s chan 0).2 : Int))).toNat
                (chan.getD (chan.length - 1) 0)
             else [])]
      else (segmentLoop w s chan 0).1 := rfl

/-- C1: sliding-window segmenter loop boundary.  The loop emits exactly the
window-size slices at indices `0, s, 2s, ...` while `index + window_size`
is strictly below the channel length; every loop-emitted slice satisfies
that strict bound; when `remaining` equals `window_size` the final complete
window is emitted by the tail branch (unfilled); and on channel
`[1,2,3,4,5]` with `window_size = 3`, `step_size = 2`, zero filling the
output epochs are exactly `[1,2,3]` and `[3,4,5]`. -/
theorem sliding_window_loop_boundary (chan : List Int) (w s : Nat)
    (hs : 0 < s) (hw : 0 < w) :
    (segmentLoop w s chan 0).1 =
      (List.range (loopCount w s chan.length 0)).map
        (fun k => (chan.drop (k * s)).take w)
    ∧ (∀ k, k < loopCount w s chan.length 0 → k * s + w < chan.length)
    ∧ ((chan.length : Int) - ((segmentLoop w s chan 0).2 : Int) = (w : Int) →
        segment_data w s "zero" chan =
          (segmentLoop w s chan 0).1 ++ [chan.drop (segmentLoop w s chan 0).2])
    ∧ segment_data 3 2 "zero" [1, 2, 3, 4, 5] = [[1, 2, 3], [3, 4, 5]] := by
  refine ⟨segmentLoop_fst w s chan,
    fun k hk => loopStart_lt w s chan.length k hk, ?_, ?_⟩
  · intro hrem
    have hwpos : (0 : Int) < (w : Int) := by exact_mod_cast hw
    rw [segment_data_eq, if_pos (by omega)]
    have hfill :
        ((w : Int) -
          ((chan.length : Int) - ((segmentLoop w s chan 0).2 : Int))).toNat = 0 := by
      rw [hrem]
      simp
    simp [hfill]
  · have hloop : segmentLoop 3 2 [1, 2, 3, 4, 5] 0 = ([[1, 2, 3]], 2) := by
      rw [segmentLoop]
      norm_num
      rw [segmentLoop]
      norm_num
    rw [segment_data_eq, hloop]
    norm_num

/-- Witness for C1 at the concrete scenario of the spec. -/
theorem sliding_window_loop_boundary_witness :
    segment_data 3 2 "zero" [1, 2, 3, 4, 5] = [[1, 2, 3], [3, 4, 5]] :=
  (sliding_window_loop_boundary [1, 2, 3, 4, 5] 3 2 (by decide) (by decide)).2.2.2

/-- C4: segmenter filling correctness.  With the final loop index `f` and
`remaining = N - f`: when `remaining = 0` no final partial epoch is emitted
(for any filling value); when `0 < remaining < window_size` the final epoch
is `chan[f:]` extended by a nonempty filling vector of length
`window_size - remaining`, all zeros under `"zero"` and the channel's last
original sample repeated under `"latest"`; when `remaining = window_size`
the final epoch is `chan[f:]`, unfilled and of full window length. -/
theorem segmenter_filling_correctness (chan : List Int) (w s : Nat)
    (hs : 0 < s) (hsw : s ≤ w) :
    ((chan.length : Int) = ((segmentLoop w s chan 0).2 : Int) →
      ∀ fill, segment_data w s fill chan = (segmentLoop w s chan 0).1)
    ∧ (0 < (chan.length : Int) - ((segmentLoop w s chan 0).2 : Int) →
        (chan.length : Int) - ((segmentLoop w s chan 0).2 : Int) < (w : Int) →
        chan ≠ []
        ∧ segment_data w s "zero" chan =
            (segmentLoop w s chan 0).1 ++
              [chan.drop (segmentLoop w s chan 0).2 ++
                List.replicate (w - (chan.length - (segmentLoop w s chan 0).2)) 0]
        ∧ segment_data w s "latest" chan =
            (segmentLoop w s chan 0).1 ++
              [chan.drop (segmentLoop w s chan 0).2 ++
                List.replicate (w - (chan.length - (segmentLoop w s chan 0).2))
                  (chan.getLast?.getD 0)]
        ∧ 0 < w - (chan.length - (segmentLoop w s chan 0).2)
        ∧ (chan.drop (segmentLoop w s chan 0).2).length
            = chan.length - (segmentLoop w s chan 0).2)
    ∧ ((chan.length : Int) - ((segmentLoop w s chan 0).2 : Int) = (w : Int) →
        0 < w →
        ∀ fill, segment_data w s fill chan =
          (segmentLoop w s chan 0).1 ++ [chan.drop (segmentLoop w s chan 0).2]
          ∧ (chan.drop (segmentLoop w s chan 0).2).length = w) := by
  have hfle : (segmentLoop w s chan 0).2 ≤ chan.length :=
    segmentLoop_snd_le w s chan hsw
  refine ⟨?_, ?_, ?_⟩
  · intro hzero fill
    rw [segment_data_eq, if_neg (by omega)]
  · intro hpos hlt
    have hNf : (segmentLoop w s chan 0).2 < chan.length := by omega
    have hN : 0 < chan.length := by omega
    have hfillnat :
        ((w : Int) -
          ((chan.length : Int) - ((segmentLoop w s chan 0).2 : Int))).toNat
          = w - (chan.length - (segmentLoop w s chan 0).2) := by
      omega
    refine ⟨List.ne_nil_of_length_pos hN, ?_, ?_, by omega, ?_⟩
    · rw [segment_data_eq, if_pos (by omega), if_pos rfl, hfillnat]
    · rw [segment_data_eq, if_pos (by omega), if_neg (by decide), if_pos rfl,
        hfillnat, getD_length_sub_one]
    · rw [List.length_drop]
  · intro hrem hw fill
    have hwpos : (0 : Int) < (w : Int) := by exact_mod_cast hw
    constructor
    · rw [segment_data_eq, if_pos (by omega)]
      have hfill :
          ((w : Int) -
            ((chan.length : Int) - ((segmentLoop w s chan 0).2 : Int))).toNat
            = 0 := by
        rw [hrem]
        simp
      simp [hfill]
    · rw [List.length_drop]
      omega

/-- Witness for C4: channel `[1,2,3,4,5,6]` with `window_size = 3`,
`step_size = 2` ends with `remaining = 2`, so the final epoch is filled. -/
theorem segmenter_filling_correctness_witness :
    ([1, 2, 3, 4, 5, 6] : List Int) ≠ []
    ∧ segment_data 3 2 "zero" [1, 2, 3, 4, 5, 6] =
        (segmentLoop 3 2 [1, 2, 3, 4, 5, 6] 0).1 ++
          [([1, 2, 3, 4, 5, 6] : List Int).drop
              (segmentLoop 3 2 [1, 2, 3, 4, 5, 6] 0).2 ++
            List.replicate
              (3 - (([1, 2, 3, 4, 5, 6] : List Int).length -
                (segmentLoop 3 2 [1, 2, 3, 4, 5, 6] 0).2)) 0]
    ∧ segment_data 3 2 "latest" [1, 2, 3, 4, 5, 6] =
        (segmentLoop 3 2 [1, 2, 3, 4, 5, 6] 0).1 ++
          [([1, 2, 3, 4, 5, 6] : List Int).drop
              (segmentLoop 3 2 [1, 2, 3, 4, 5, 6] 0).2 ++
            List.replicate
              (3 - (([1, 2, 3, 4, 5, 6] : List Int).length -
                (segmentLoop 3 2 [1, 2, 3, 4, 5, 6] 0).2))
              (([1, 2, 3, 4, 5, 6] : List Int).getLast?.getD 0)]
    ∧ 0 < 3 - (([1, 2, 3, 4, 5, 6] : List Int).length -
        (segmentLoop 3 2 [1, 2, 3, 4, 5, 6] 0).2)
    ∧ (([1, 2, 3, 4, 5, 6] : List Int).drop
        (segmentLoop 3 2 [1, 2, 3, 4, 5, 6] 0).2).length
        = ([1, 2, 3, 4, 5, 6] : List Int).length -
            (segmentLoop 3 2 [1, 2, 3, 4, 5, 6] 0).2 := by
  have hloop : segmentLoop 3 2 [1, 2, 3, 4, 5, 6] 0 = ([[1, 2, 3], [3, 4, 5]], 4) := by
    rw [segmentLoop]
    norm_num
    rw [segmentLoop]
    norm_num
    rw [segmentLoop]
    norm_num
  exact (segmenter_filling_correctness [1, 2, 3, 4, 5, 6] 3 2 (by decide)
    (by decide)).2.1 (by rw [hloop] ; norm_num) (by rw [hloop] ; norm_num)

/-- C6 counterexample: the claimed double emission never happens.  There is
no channel length `N` and valid `(window_size, step_size)` for which a
loop-emitted epoch occupies the last full window `[N - w, N)` — every loop
start index `k * s` satisfies `k * s + w < N` strictly, while the tail
branch's unfilled full window satisfies `start + w = N`, so the two can
never be the same slice of the channel. -/
theorem segmenter_no_double_emission :
    ¬ ∃ (N w s k : Nat), 1 ≤ s ∧ s < w ∧ k < loopCount w s N 0 ∧
      k * s + w = N := by
  rintro ⟨N, w, s, k, -, -, hk, heq⟩
  have hlt := loopStart_lt w s N k hk
  omega

/-- C6 amended: the last full window is emitted at most once.  Every epoch
the loop emits starts at an index `k * s` whose window ends strictly
before the channel end (`k * s + w < N`), so whenever the tail branch
emits the unfilled full final window `[N - w, N)`, no loop-emitted epoch
is that slice; the strict loop bound prevents any double emission. -/
theorem segmenter_last_window_once (N w s k : Nat)
    (hk : k < loopCount w s N 0) :
    k * s + w < N ∧ k * s ≠ N - w := by
  have hlt := loopStart_lt w s N k hk
  omega

/-- Witness for the amended C6 at `N = 6`, `w = 3`, `s = 2`, `k = 0`. -/
theorem segmenter_last_window_once_witness :
    0 * 2 + 3 < 6 ∧ 0 * 2 ≠ 6 - 3 :=
  segmenter_last_window_once 6 3 2 0 (by
    rw [loopCount]
    norm_num)

/-- C5 counterexample: the segmenter's validation accepts `step_size = 1`
with `window_size = 3` and `filling_value = "zero"`, although the claim
says every `step_size` outside `1 < step_size < window_size` is rejected.
The source only rejects `step_size < 1` or `step_size >= window_size`. -/
theorem sw_step_size_one_accepted :
    swValidate ⟨some (.int 3), some (.str "zero"), some (.int 1)⟩ =
      VResult.ok := rfl

/-- C5 amended: for a complete parameter set, validation never raises
`MissingParameterError`; it succeeds exactly when `window_size` is an
integer at least 1, `filling_value` is the string `"zero"` or `"latest"`,
and `step_size` is an integer with `1 ≤ step_size < window_size` (so
`step_size = 1` is accepted when `window_size > 1`); and `window_size = 1`
is still always rejected with `InvalidParameterValue`, through the
`step_size` cross-parameter check rather than the `window_size` check. -/
theorem swValidate_characterisation (wv fv sv : PyVal) :
    (swValidate ⟨some wv, some fv, some sv⟩ = VResult.ok ↔
      wv.isInt = true ∧ 1 ≤ wv.asInt ∧ fv.isStr = true ∧
        (fv.asStr = "zero" ∨ fv.asStr = "latest") ∧ sv.isInt = true ∧
        1 ≤ sv.asInt ∧ sv.asInt < wv.asInt)
    ∧ (swValidate ⟨some wv, some fv, some sv⟩).isMissing = false
    ∧ (∀ t : Int,
        swValidate ⟨some (.int 1), some (.str "zero"), some (.int t)⟩ =
          VResult.invalidParameterValue "step_size"
            "must_be_greater_than_0_and_smaller_than_window_size") := by
  refine ⟨?_, ?_, ?_⟩
  · simp only [swValidate]
    split_ifs with h1 h2 h3 h4 h5 h6 <;>
      simp_all <;> omega
  · simp only [swValidate]
    split_ifs <;> rfl
  · intro t
    simp only [swValidate, PyVal.isInt, PyVal.isStr, PyVal.asInt, PyVal.asStr]
    split_ifs <;> first | rfl | (exfalso ; omega) | simp_all | omega

/-- C8: the interpolate node's conditional `step_size` requirement.  With a
valid `window_size` (`1 < w`): an absent `step_size` raises
`MissingParameterError` exactly when `sliding_window` is `True`; with
`sliding_window` `False` the `step_size` key is neither required nor
checked (validation returns normally whatever the key holds); with
`sliding_window` `True`, an integer `step_size` is accepted iff
`1 < step_size < window_size`, rejected as `invalid_value` otherwise, and
a non-integer `step_size` is rejected as `must_be_int`. -/
theorem interpolate_step_size_conditional (w : Int) (hw : 1 < w) :
    (interpolateValidate ⟨some (.int w), some (.bool true), Option.none⟩ =
      VResult.missingParameter "step_size")
    ∧ (∀ sv : Option PyVal,
        interpolateValidate ⟨some (.int w), some (.bool false), sv⟩ =
          VResult.ok)
    ∧ (∀ t : Int,
        interpolateValidate ⟨some (.int w), some (.bool true), some (.int t)⟩ =
          VResult.ok ↔ 1 < t ∧ t < w)
    ∧ (∀ t : Int, t ≤ 1 ∨ w ≤ t →
        interpolateValidate ⟨some (.int w), some (.bool true), some (.int t)⟩ =
          VResult.invalidParameterValue "step_size" "invalid_value")
    ∧ (∀ v : PyVal, v.isInt = false →
        interpolateValidate ⟨some (.int w), some (.bool true), some v⟩ =
          VResult.invalidParameterValue "step_size" "must_be_int") := by
  have hwle : ¬ ((PyVal.int w).asInt ≤ 1) := by
    simp only [PyVal.asInt]
    omega
  refine ⟨?_, ?_, ?_, ?_, ?_⟩
  · simp [interpolateValidate, PyVal.isInt, PyVal.isBool, PyVal.asBool, hwle]
  · intro sv
    simp [interpolateValidate, PyVal.isInt, PyVal.isBool, PyVal.asBool, hwle]
  · intro t
    simp only [interpolateValidate, PyVal.isInt, PyVal.isBool, PyVal.asBool,
      PyVal.asInt, Bool.not_true, Bool.false_eq_true, if_false, hwle,
      if_true]
    split_ifs with h1 h2 <;> simp_all <;> omega
  · intro t ht
    simp only [interpolateValidate, PyVal.isInt, PyVal.isBool, PyVal.asBool,
      PyVal.asInt, hwle]
    split_ifs with h1 h2 <;> simp_all <;> omega
  · intro v hv
    have hwle2 : ¬ (w ≤ 1) := by omega
    cases v with
    | int n => simp [PyVal.isInt] at hv
    | str t =>
      simp [interpolateValidate, PyVal.isInt, PyVal.isBool, PyVal.asBool,
        PyVal.asInt, hwle2]
    | bool b =>
      simp [interpolateValidate, PyVal.isInt, PyVal.isBool, PyVal.asBool,
        PyVal.asInt, hwle2]
    | other =>
      simp [interpolateValidate, PyVal.isInt, PyVal.isBool, PyVal.asBool,
        PyVal.asInt, hwle2]

/-- Witness for C8 at `window_size = 3`: a missing `step_size` with sliding
mode on is reported as missing. -/
theorem interpolate_step_size_conditional_witness :
    interpolateValidate ⟨some (.int 3), some (.bool true), Option.none⟩ =
      VResult.missingParameter "step_size" :=
  (interpolate_step_size_conditional 3 (by norm_num)).1

/-- One merge step grows the slot array by exactly `step_size` slots. -/
theorem slideStep_length (w s : Nat) (v : Int) (m : List (List Int)) :
    (slideStep w s v m).length = m.length + s := by
  simp [slideStep]
  omega

/-- Folding merge steps over a list of epoch values grows the slot array by
`step_size` slots per epoch. -/
theorem mergeFold_length (w s : Nat) :
    ∀ (l : List Int) (acc : List (List Int)),
      (l.foldl (fun m v => slideStep w s v m) acc).length =
        acc.length + l.length * s := by
  intro l
  induction l with
  | nil => intro acc; simp
  | cons v vs ih =>
    intro acc
    simp only [List.foldl_cons, List.length_cons, ih, slideStep_length]
    ring

/-- The merged slot array has `window_size + (W - 1) * step_size` slots,
with `W - 1` the number of epochs after the first. -/
theorem interpolateMerge_length (w s : Nat) (vals : List Int) :
    (interpolateMerge w s vals).length = w + vals.tail.length * s := by
  simp [interpolateMerge, mergeFold_length]

/-- A merge step preserves nonemptiness of every slot. -/
theorem slideStep_ne_nil (w s : Nat) (v : Int) (m : List (List Int))
    (hm : ∀ c ∈ m, c ≠ []) : ∀ c ∈ slideStep w s v m, c ≠ [] := by
  intro c hc
  simp only [slideStep, List.mem_append] at hc
  rcases hc with (hc | hc) | hc
  · exact hm c (List.take_subset _ _ hc)
  · obtain ⟨a, ha, rfl⟩ := List.mem_map.mp hc
    simp
  · rw [List.eq_of_mem_replicate hc]
    simp

/-- Every slot of the merged array is nonempty: slots are created as
singletons and only ever extended. -/
theorem interpolateMerge_ne_nil (w s : Nat) (vals : List Int) :
    ∀ c ∈ interpolateMerge w s vals, c ≠ [] := by
  have H : ∀ (l : List Int) (acc : List (List Int)),
      (∀ c ∈ acc, c ≠ []) →
      ∀ c ∈ l.foldl (fun m v => slideStep w s v m) acc, c ≠ [] := by
    intro l
    induction l with
    | nil => intro acc hacc; simpa using hacc
    | cons v vs ih =>
      intro acc hacc
      simp only [List.foldl_cons]
      exact ih _ (slideStep_ne_nil w s v acc hacc)
  intro c hc
  refine H vals.tail (List.replicate w [vals.getD 0 0]) ?_ c hc
  intro d hd
  rw [List.eq_of_mem_replicate hd]
  simp

/-- The fold of `max` over a list starting at `x` lands in `x :: xs`. -/
theorem foldl_max_mem : ∀ (xs : List Int) (x : Int),
    xs.foldl max x ∈ x :: xs := by
  intro xs
  induction xs with
  | nil => intro x; simp
  | cons y ys ih =>
    intro x
    simp only [List.foldl_cons]
    have h := ih (max x y)
    rcases List.mem_cons.mp h with h1 | h2
    · rw [h1]
      rcases max_choice x y with hx | hy
      · rw [hx]; exact List.mem_cons_self _ _
      · rw [hy]; exact List.mem_cons_of_mem _ (List.mem_cons_self _ _)
    · exact List.mem_cons_of_mem _ (List.mem_cons_of_mem _ h2)

/-- Every element of `x :: xs` is bounded by the fold of `max` over `xs`
starting at `x`. -/
theorem le_foldl_max : ∀ (xs : List Int) (x a : Int),
    a ∈ x :: xs → a ≤ xs.foldl max x := by
  intro xs
  induction xs with
  | nil =>
    intro x a ha
    simp only [List.mem_singleton] at ha
    simp [ha]
  | cons y ys ih =>
    intro x a ha
    simp only [List.foldl_cons]
    rcases List.mem_cons.mp ha with h1 | h2
    · calc a = x := h1
        _ ≤ max x y := le_max_left x y
        _ ≤ ys.foldl max (max x y) :=
          ih (max x y) (max x y) (List.mem_cons_self _ _)
    · rcases List.mem_cons.mp h2 with h3 | h4
      · calc a = y := h3
          _ ≤ max x y := le_max_right x y
          _ ≤ ys.foldl max (max x y) :=
            ih (max x y) (max x y) (List.mem_cons_self _ _)
      · exact ih (max x y) a (List.mem_cons_of_mem _ h4)

/-- Python's `max` of a nonempty list is one of its elements. -/
theorem pyMax_mem (l : List Int) (hl : l ≠ []) : pyMax l ∈ l := by
  cases l with
  | nil => exact absurd rfl hl
  | cons x xs => exact foldl_max_mem xs x

/-- Python's `max` of a list bounds every element. -/
theorem le_pyMax (l : List Int) (a : Int) (ha : a ∈ l) : a ≤ pyMax l := by
  cases l with
  | nil => simp at ha
  | cons x xs => exact le_foldl_max xs x a ha

/-- Resolving a slot array whose slots are all nonempty is a per-slot map:
slots with at least two candidates resolve to their `max`, singleton slots
to their unique element. -/
theorem resolveFold_eq_map :
    ∀ (L : List (List Int)), (∀ c ∈ L, c ≠ []) →
      L.foldr (fun c acc => (if 1 < c.length then [pyMax c] else c) ++ acc)
          [] =
        L.map (fun c => if 1 < c.length then pyMax c else c.getD 0 0) := by
  intro L
  induction L with
  | nil => intro h; rfl
  | cons c cs ih =>
    intro h
    simp only [List.foldr_cons, List.map_cons]
    rw [ih (fun d hd => h d (List.mem_cons_of_mem _ hd))]
    by_cases hc : 1 < c.length
    · simp [hc]
    · have hne := h c (List.mem_cons_self _ _)
      cases c with
      | nil => exact absurd rfl hne
      | cons x xs =>
        cases xs with
        | nil => simp
        | cons y ys => simp at hc

/-- C2: sliding-mode interpolation.  For a channel holding at least one
epoch value, the output has length `window_size + (W - 1) * step_size`;
the output is the per-slot resolution of the merged candidate array, where
a slot holding more than one candidate (fed by several epochs) resolves to
the maximum of its candidates — which is itself one of the candidates and
bounds them all — and a slot holding a single candidate resolves to that
candidate's exact value; in particular a slot fed by exactly two epochs
with values `v1 < v2` resolves to `v2`. -/
theorem interpolate_sliding_overlap_max (w s : Nat) (vals : List Int)
    (hW : vals ≠ []) :
    (interpolateSliding w s vals).length = w + (vals.length - 1) * s
    ∧ interpolateSliding w s vals =
        (interpolateMerge w s vals).map
          (fun c => if 1 < c.length then pyMax c else c.getD 0 0)
    ∧ (∀ c ∈ interpolateMerge w s vals,
        c ≠ [] ∧ pyMax c ∈ c ∧ ∀ x ∈ c, x ≤ pyMax c)
    ∧ (∀ v1 v2 : Int, v1 < v2 → pyMax [v1, v2] = v2) := by
  have hmap : interpolateSliding w s vals =
      (interpolateMerge w s vals).map
        (fun c => if 1 < c.length then pyMax c else c.getD 0 0) :=
    resolveFold_eq_map (interpolateMerge w s vals)
      (interpolateMerge_ne_nil w s vals)
  refine ⟨?_, hmap, ?_, ?_⟩
  · rw [hmap, List.length_map, interpolateMerge_length]
    rcases List.exists_cons_of_ne_nil hW with ⟨x, xs, rfl⟩
    simp
  · intro c hc
    have hne := interpolateMerge_ne_nil w s vals c hc
    exact ⟨hne, pyMax_mem c hne, fun x hx => le_pyMax c x hx⟩
  · intro v1 v2 h12
    simp only [pyMax, List.foldl_cons, List.foldl_nil]
    omega

/-- Witness for C2 at `window_size = 3`, `step_size = 2`, epochs
`[10, 5]`: output length is `3 + 1 * 2` and the two-candidate overlap slot
resolves to the maximum. -/
theorem interpolate_sliding_overlap_max_witness :
    (interpolateSliding 3 2 [10, 5]).length = 3 + (([10, 5] : List Int).length - 1) * 2 :=
  (interpolate_sliding_overlap_max 3 2 [10, 5] (by decide)).1

/-- Element lookup in a constant list. -/
theorem getD_replicate (n i : Nat) (x : Int) (h : i < n) :
    (List.replicate n x).getD i 0 = x := by
  induction n generalizing i with
  | zero => omega
  | succ m ih =>
    cases i with
    | zero => rfl
    | succ j =>
      simpa [List.replicate_succ, List.getD_cons_succ] using ih j (by omega)

/-- Length of the block-replication fold used by the non-sliding
interpolation and by data replication. -/
theorem replicateFold_length (n : Nat) (l : List Int) :
    (l.foldr (fun v acc => List.replicate n v ++ acc) []).length =
      l.length * n := by
  induction l with
  | nil => simp
  | cons x xs ih =>
    simp only [List.foldr_cons, List.length_append, List.length_replicate,
      ih, List.length_cons]
    ring

/-- Sample `i` of the block-replication fold is input sample `i / n`. -/
theorem replicateFold_getD (n : Nat) (hn : 0 < n) :
    ∀ (l : List Int) (i : Nat), i < l.length * n →
      (l.foldr (fun v acc => List.replicate n v ++ acc) []).getD i 0 =
        l.getD (i / n) 0 := by
  intro l
  induction l with
  | nil => intro i hi; simp at hi
  | cons x xs ih =>
    intro i hi
    simp only [List.foldr_cons]
    by_cases hlt : i < n
    · rw [List.getD_append _ _ _ _ (by simpa using hlt)]
      rw [getD_replicate n i x hlt, Nat.div_eq_of_lt hlt]
      rfl
    · push_neg at hlt
      rw [List.getD_append_right _ _ _ _ (by simpa using hlt)]
      simp only [List.length_replicate]
      have hdiv : i / n = (i - n) / n + 1 := by
        conv_lhs => rw [← Nat.sub_add_cancel hlt]
        rw [Nat.add_div_right _ hn]
      rw [hdiv, List.getD_cons_succ]
      refine ih (i - n) ?_
      have : (xs.length + 1) * n = xs.length * n + n := by ring
      simp only [List.length_cons] at hi
      omega

/-- C7: non-sliding interpolation round-trip.  Feeding `K` epoch values
through the non-sliding mode yields a sequence of length `K * window_size`
whose sample `i` is the epoch value at position `i / window_size` — each
epoch value replicated `window_size` times, blocks in epoch order. -/
theorem interpolate_non_sliding_roundtrip (w : Nat) (hw : 0 < w)
    (vals : List Int) :
    (interpolateNonSliding w vals).length = vals.length * w
    ∧ ∀ i, i < vals.length * w →
        (interpolateNonSliding w vals).getD i 0 = vals.getD (i / w) 0 := by
  constructor
  · exact replicateFold_length w vals
  · intro i hi
    exact replicateFold_getD w hw vals i hi

/-- Witness for C7 at `window_size = 3`, epochs `[7, 8]`. -/
theorem interpolate_non_sliding_roundtrip_witness :
    (interpolateNonSliding 3 [7, 8]).length = ([7, 8] : List Int).length * 3
    ∧ ∀ i, i < ([7, 8] : List Int).length * 3 →
        (interpolateNonSliding 3 [7, 8]).getD i 0 =
          ([7, 8] : List Int).getD (i / 3) 0 :=
  interpolate_non_sliding_roundtrip 3 (by decide) [7, 8]

/-- C3: per-channel data replication.  For a nonempty channel of length
`L`, with `use_extra_data` enabled the processing succeeds and produces an
output of length `L * data_repetition_count + extra_data` in which sample
`i` of the replicated body is input sample `i / data_repetition_count`
(sample-major order) and every sample of the tail extension is the
channel's last original sample; with `use_extra_data` disabled the output
is just the replicated body of length `L * data_repetition_count`.  On
channel `[10, 20]` with `data_repetition_count = 3`, `use_extra_data` on
and `extra_data = 2`, the output is `[10,10,10,20,20,20,20,20]`. -/
theorem data_replicate_spec (drc extra : Nat) (hd : 0 < drc)
    (chan : List Int) (hne : chan ≠ []) :
    (∃ out, dataReplicateChannel drc true extra chan = some out
      ∧ out.length = chan.length * drc + extra
      ∧ (∀ i, i < chan.length * drc → out.getD i 0 = chan.getD (i / drc) 0)
      ∧ (∀ j, chan.length * drc ≤ j → j < chan.length * drc + extra →
          out.getD j 0 = chan.getLast hne))
    ∧ dataReplicateChannel drc false extra chan =
        some (chan.foldr (fun e acc => List.replicate drc e ++ acc) [])
    ∧ (chan.foldr (fun e acc => List.replicate drc e ++ acc) []).length =
        chan.length * drc
    ∧ dataReplicateChannel 3 true 2 [10, 20] =
        some [10, 10, 10, 20, 20, 20, 20, 20] := by
  have hlen := replicateFold_length drc chan
  refine ⟨?_, ?_, hlen, by decide⟩
  · have hlast : chan.getLast? = some (chan.getLast hne) :=
      List.getLast?_eq_getLast chan hne
    refine ⟨chan.foldr (fun e acc => List.replicate drc e ++ acc) [] ++
      List.replicate extra (chan.getLast hne), ?_, ?_, ?_, ?_⟩
    · simp [dataReplicateChannel, hlast]
    · simp [hlen]
    · intro i hi
      rw [List.getD_append _ _ _ _ (by omega)]
      exact replicateFold_getD drc hd chan i hi
    · intro j hj1 hj2
      rw [List.getD_append_right _ _ _ _ (by omega)]
      exact getD_replicate extra _ _ (by omega)
  · rfl

/-- Witness for C3 at the concrete scenario of the spec. -/
theorem data_replicate_spec_witness :
    dataReplicateChannel 3 true 2 [10, 20] =
      some [10, 10, 10, 20, 20, 20, 20, 20] :=
  (data_replicate_spec 3 2 (by decide) [10, 20] (by decide)).2.2.2

/-- C10: DataReplicate empty-channel precondition.  With `use_extra_data`
on, per-channel processing succeeds exactly on nonempty channels — the
`channel_elements[-1]` access makes processing of an empty channel fail —
so container-level processing is total exactly under the precondition that
every channel carries at least one sample, and fails on a container with
an empty channel. -/
theorem data_replicate_empty_channel_precondition (drc extra : Nat)
    (d : FrameworkData Int) (hne : ∀ c ∈ d.channels, d.data c ≠ []) :
    (dataReplicate_process_fd drc true extra d).isSome = true
    ∧ (∀ chan : List Int, chan ≠ [] →
        (dataReplicateChannel drc true extra chan).isSome = true)
    ∧ dataReplicateChannel drc true extra [] = Option.none
    ∧ dataReplicate_process_fd drc true extra ⟨1, ["ch"], fun _ => []⟩ =
        Option.none := by
  refine ⟨?_, ?_, rfl, ?_⟩
  · rw [dataReplicate_process_fd, if_neg ?_]
    · rfl
    · intro hcontra
      obtain ⟨c, hc, hcempty⟩ := List.any_eq_true.mp hcontra.2
      exact hne c hc (List.isEmpty_iff.mp hcempty)
  · intro chan hchan
    obtain ⟨x, hx⟩ :=
      Option.isSome_iff_exists.mp (List.getLast?_isSome.mpr hchan)
    simp [dataReplicateChannel, hx]
  · rfl

/-- Witness for C10 on a one-channel container holding one sample. -/
theorem data_replicate_empty_channel_precondition_witness :
    (dataReplicate_process_fd 3 2 2 ⟨1, ["a"], fun _ => [5]⟩).isSome = true :=
  (data_replicate_empty_channel_precondition 3 2 ⟨1, ["a"], fun _ => [5]⟩
    (by intro c hc; simp)).1

/-- C9: output sampling frequency.  `Interpolate._process` and
`DataReplicate._process` build their output containers with
`FrameworkData.from_multi_channel(1, ...)`, so the output sampling
frequency is the constant 1 whatever the input's is; the sliding-window
segmenter instead constructs its output with the input container's
sampling frequency, propagating it unchanged. -/
theorem output_sampling_frequency (w s drc extra : Nat)
    (sliding useExtra : Bool) (filling : String) (d : FrameworkData Int)
    (out : FrameworkData Int)
    (h : dataReplicate_process_fd drc useExtra extra d = some out) :
    (interpolate_process_fd w s sliding d).sampling_frequency = 1
    ∧ out.sampling_frequency = 1
    ∧ (segment_data_fd w s filling d).sampling_frequency =
        d.sampling_frequency := by
  refine ⟨rfl, ?_, rfl⟩
  rw [dataReplicate_process_fd] at h
  by_cases hc : useExtra = true ∧
      (d.channels.any fun c => (d.data c).isEmpty) = true
  · rw [if_pos hc] at h
    cases h
  · rw [if_neg hc] at h
    have h2 := Option.some.inj h
    rw [← h2]
    rfl

/-- Concrete input container for the C9 witness. -/
def fdEx : FrameworkData Int := ⟨7, ["c"], fun _ => [1, 2, 3]⟩

/-- Concrete DataReplicate output container for the C9 witness. -/
def fdRepOut : FrameworkData Int :=
  (dataReplicate_process_fd 3 false 2 fdEx).getD ⟨0, [], fun _ => []⟩

/-- Witness for C9 at a concrete container with sampling frequency 7. -/
theorem output_sampling_frequency_witness :
    (interpolate_process_fd 3 2 true fdEx).sampling_frequency = 1
    ∧ fdRepOut.sampling_frequency = 1
    ∧ (segment_data_fd 3 2 "zero" fdEx).sampling_frequency =
        fdEx.sampling_frequency :=
  output_sampling_frequency 3 2 3 2 true false "zero" fdEx fdRepOut rfl
